import Mathlib

/-!
Verification of the chain-tx-enclave repository's ABCI query/proof subsystem
and wallet core against its specification.

The Rust sources under `chain-abci/src/app/query.rs`,
`client-core/src/wallet/default_wallet_client.rs` and
`client-common/src/balance/transaction_change.rs` are shallowly embedded here:
byte strings become `List Nat`, fallible calls return `Option`/`Except`, and
a `panic!`-style abort (an `unwrap`/`expect`/`copy_from_slice` failure) is the
`none` result of the embedded handler.  Collaborators that live outside the
given sources (hashing, SCALE primitives, the Merkle tree, the wallet service
layer) are modelled from the specification and are marked as such.
-/

set_option maxRecDepth 16000

namespace ChainTx

/-- Byte strings: each entry is one byte (values are taken mod 256 where the
source arithmetic demands it). -/
abbrev Bytes := List Nat

/-! ## Modelled crypto and codec primitives (chain-core, not under src/) -/

/-- Modelled from the spec: `hash-of-bytes → H256` (§4.A).  A deterministic,
executable stand-in producing a 32-byte digest; the claims only use that it is
a fixed function of the input bytes. -/
def txidHash (l : Bytes) : Bytes :=
  (List.range 32).map (fun i => l.foldl (fun a b => (a * 131 + b + 1) % 256) ((i + 7) % 256))

/-- Modelled from the spec: the fixed `TXID_HASH_ID` sentinel used as the key
of witness proof ops (§6, proof-op wire format). -/
def TXID_HASH_ID : Bytes := [116, 120, 105, 100]

/-- Modelled from the spec: a position-encoded Merkle inclusion proof (§4.A). -/
structure MerkleProof where
  index : Nat
  leaf : Bytes
deriving DecidableEq, Repr

/-- Modelled from the spec: the encoding of a Merkle proof appearing as proof-op
data. -/
def MerkleProof.encode (p : MerkleProof) : Bytes :=
  p.index :: p.leaf

/-- Modelled from the spec: the per-block Merkle tree over transaction ids
(§4.A, §4.D). -/
structure MerkleTree where
  leaves : List Bytes
deriving DecidableEq, Repr

/-- Fuel-driven worker for `chunks32`; the fuel starts at the list length,
which bounds the number of chunks. -/
def chunks32Go : Nat → Bytes → List Bytes
  | _, [] => []
  | 0, _ :: _ => []
  | fuel + 1, x :: xs => (x :: xs).take 32 :: chunks32Go fuel ((x :: xs).drop 32)

/-- Split a byte string into 32-byte chunks (the stored tree blob is the
concatenation of its 32-byte txid leaves). -/
def chunks32 (l : Bytes) : List Bytes :=
  chunks32Go l.length l

/-- Modelled from the spec: decoding the per-app-hash Merkle tree blob (§4.D
step 1); fails unless the blob is a whole number of 32-byte leaves. -/
def MerkleTree.decode (l : Bytes) : Option MerkleTree :=
  if l.length % 32 = 0 then some ⟨chunks32 l⟩ else none

/-- Modelled from the spec: the tree's root hash (§4.A). -/
def MerkleTree.rootHash (t : MerkleTree) : Bytes :=
  txidHash t.leaves.flatten

/-- Modelled from the spec: `generate_proof(l)` returns a proof exactly for
leaves of the tree and `none` otherwise (§8). -/
def MerkleTree.generateProof (t : MerkleTree) (txid : Bytes) : Option MerkleProof :=
  match t.leaves.indexOf? txid with
  | some i => some ⟨i, txid⟩
  | none => none

/-- Zigzag mapping of a signed integer, as used by the `integer-encoding`
crate's `i64` varint. -/
def zigzag (i : Int) : Nat :=
  if 0 ≤ i then 2 * i.toNat else 2 * (-i).toNat - 1

/-- Fuel-driven worker for `leb128`; fuel `n` bounds the number of emitted
bytes, so the fallback branch is unreachable from `leb128`. -/
def leb128Go : Nat → Nat → Bytes
  | 0, n => [n % 128]
  | fuel + 1, n => if n < 128 then [n] else (n % 128 + 128) :: leb128Go fuel (n / 128)

/-- LEB128 encoding of a natural number. -/
def leb128 (n : Nat) : Bytes :=
  leb128Go n n

/-- Modelled from the spec: `i64::encode_var_vec`, the varint key of the
per-height app-hash column (§4.C). -/
def encodeVarI64 (i : Int) : Bytes := leb128 (zigzag i)

/-! ## ABCI query handler embedding (`chain-abci/src/app/query.rs`) -/

/-- The KV columns used by the query handler (`COL_BODIES`, `COL_TX_META`,
`COL_WITNESS`, `COL_APP_STATES`, `COL_MERKLE_PROOFS`, `COL_EXTRA`). -/
inductive Col
  | bodies
  | txMeta
  | witness
  | appStates
  | merkleProofs
  | extra
deriving DecidableEq, Repr

/-- An ABCI proof op (`{type, key, data}`). -/
structure ProofOp where
  fieldType : String
  key : Bytes
  data : Bytes
deriving DecidableEq, Repr

/-- An ABCI query request (`RequestQuery`): path, data, height, prove. -/
structure RequestQuery where
  path : String
  data : Bytes
  height : Int
  prove : Bool
deriving DecidableEq, Repr

/-- An ABCI query response (`ResponseQuery`): code, value, log and the optional
proof (a list of ops). -/
structure ResponseQuery where
  code : Nat
  value : Bytes
  log : String
  proof : Option (List ProofOp)
deriving DecidableEq, Repr

/-- `ResponseQuery::new()`: code 0, empty value and log, no proof. -/
def ResponseQuery.new : ResponseQuery :=
  { code := 0, value := [], log := "", proof := none }

/-- The slice of `ChainNodeState` the query handler reads: the tip height and
the account-trie root at the tip. -/
structure ChainState where
  lastBlockHeight : Int
  lastAccountRootHash : Bytes
deriving DecidableEq, Repr

/-- The slice of `ChainNodeApp` the query handler reads: the column/key store
(`none` = key absent or storage error, handled identically by the source), the
optional last state, and the account-trie lookup `get_account` composed with
`StakedState` encoding (modelled as one oracle, since both live outside the
given sources). -/
structure ChainNodeApp where
  db : Col → Bytes → Option Bytes
  lastState : Option ChainState
  accounts : Bytes → Bytes → Except String Bytes

/-- `get_witness_proof_op`: type `"witness"`, key `TXID_HASH_ID`, data
`txid_hash(witness)`. -/
def getWitnessProofOp (witness : Bytes) : ProofOp :=
  { fieldType := "witness", key := TXID_HASH_ID, data := txidHash witness }

/-- `into_proof_op`: type `"transaction"`, key the tree's root hash, data the
encoded Merkle proof. -/
def intoProofOp (rootHash : Bytes) (proof : MerkleProof) : ProofOp :=
  { fieldType := "transaction", key := rootHash, data := proof.encode }

/-- `ChainNodeApp::lookup`: find a key under a column, or record the log
message and code 1 in the response. -/
def lookup (app : ChainNodeApp) (resp : ResponseQuery) (col : Col) (key : Bytes)
    (logMessage : String) : ResponseQuery :=
  match app.db col key with
  | some uv => { resp with value := uv }
  | none => { resp with log := resp.log ++ logMessage, code := 1 }

/-- `handle_enc_dec` in the production build (no `mock-enc-dec` feature):
warn and answer code 1. -/
def handleEncDec (resp : ResponseQuery) : ResponseQuery :=
  { resp with
    log := resp.log ++
      "received a temporary *mock* encryption/decryption query in abci (use the dedicated enclaves instead)",
    code := 1 }

/-- `Rust str::starts_with` on the path, char by char. -/
def charsLead (p s : List Char) : Bool :=
  match p, s with
  | [], _ => true
  | _ :: _, [] => false
  | a :: ps, b :: ss => a == b && charsLead ps ss

/-- `req.path.starts_with(p)`. -/
def pathLeads (s p : String) : Bool := charsLead p.data s.data

/-- `self.last_state.as_ref().map_or(0, |x| x.last_block_height)`. -/
def lastHeightOf (app : ChainNodeApp) : Int :=
  match app.lastState with
  | none => 0
  | some st => st.lastBlockHeight

/-- The height used for the historical app-hash lookup:
`if _req.height == 0 || _req.height > last_height { last_height } else { _req.height }`. -/
def selectHeight (reqHeight lastHeight : Int) : Int :=
  if reqHeight = 0 ∨ lastHeight < reqHeight then lastHeight else reqHeight

/-- Modelled from the spec: `StakedStateAddress::try_from(&[u8])` succeeds
exactly on 20-byte redeem-address data (§3, Address/Redeem). -/
def decodeStakedStateAddress (d : Bytes) : Option Bytes :=
  if d.length = 20 then some d else none

/-- `ChainNodeApp::query_handler`.  A `none` result models a process abort
(the source's `unwrap`/`expect`/`copy_from_slice` panics on the prove path);
`some resp` is the returned `ResponseQuery`. -/
def queryHandler (app : ChainNodeApp) (req : RequestQuery) : Option ResponseQuery :=
  let resp := ResponseQuery.new
  if pathLeads req.path "/p2p" || pathLeads req.path "p2p" then
    some resp
  else if req.path = "mockencrypt" then some (handleEncDec resp)
  else if req.path = "mockdecrypt" then some (handleEncDec resp)
  else if req.path = "store" then
    let resp := lookup app resp Col.bodies req.data "tx not found"
    if req.prove = true ∧ resp.code = 0 then
      match app.db Col.witness req.data with
      | some witness =>
        let height := selectHeight req.height (lastHeightOf app)
        match app.db Col.appStates (encodeVarI64 height) with
        | none => none
        | some appHash =>
          match app.db Col.merkleProofs appHash with
          | none => none
          | some data =>
            match MerkleTree.decode data with
            | none => none
            | some tree =>
              if req.data.length = 32 then
                let txid := req.data
                let proofOps :=
                  match tree.generateProof txid with
                  | none => [getWitnessProofOp witness]
                  | some merkleProof =>
                      [intoProofOp tree.rootHash merkleProof, getWitnessProofOp witness]
                some { resp with proof := some proofOps }
              else none
      | none =>
          some { resp with log := resp.log ++ "proof error: witness not found", code := 2 }
    else some resp
  else if req.path = "meta" then
    some (lookup app resp Col.txMeta req.data "tx not found")
  else if req.path = "witness" then
    some (lookup app resp Col.witness req.data "tx not found")
  else if req.path = "merkle" then
    some (lookup app resp Col.merkleProofs req.data "app state not found")
  else if req.path = "account" then
    match app.lastState, decodeStakedStateAddress req.data with
    | some state, some address =>
      match app.accounts address state.lastAccountRootHash with
      | Except.ok a => some { resp with value := a }
      | Except.error e =>
          some { resp with log := resp.log ++ ("account lookup failed: " ++ e), code := 1 }
    | _, _ =>
      some { resp with
        log := resp.log ++
          "account lookup failed (either invalid address or node not correctly restored / initialized)",
        code := 3 }
  else
    some { resp with log := resp.log ++ "invalid path", code := 1 }

/-- Concrete txid used by the query-handler witnesses. -/
def okTxid : Bytes := List.replicate 32 1

/-- Concrete app used by the query-handler witnesses: body, witness, app-hash
and Merkle blob all present for `okTxid` at tip height 5. -/
def okApp : ChainNodeApp where
  db := fun c k =>
    match c with
    | Col.bodies => if k = okTxid then some [9] else none
    | Col.witness => if k = okTxid then some [8] else none
    | Col.appStates => if k = encodeVarI64 5 then some [3] else none
    | Col.merkleProofs => if k = [3] then some okTxid else none
    | _ => none
  lastState := some ⟨5, []⟩
  accounts := fun _ _ => Except.error "no trie"

/-- Concrete app used by the C3 witness: body stored, witness absent. -/
def noWitnessApp : ChainNodeApp where
  db := fun c k =>
    match c with
    | Col.bodies => if k = okTxid then some [9] else none
    | _ => none
  lastState := some ⟨5, []⟩
  accounts := fun _ _ => Except.error "no trie"

/-- Concrete app for C4: body and witness stored for `okTxid`, tip height 5,
but no app-hash stored under the varint key of the selected height. -/
def panicApp : ChainNodeApp where
  db := fun c k =>
    match c with
    | Col.bodies => if k = okTxid then some [9] else none
    | Col.witness => if k = okTxid then some [8] else none
    | _ => none
  lastState := some ⟨5, []⟩
  accounts := fun _ _ => Except.error "no trie"

/-! ## Wallet client builder (`client-core/src/wallet/default_wallet_client.rs`) -/

/-- Error kinds of the client crates (§7); only the constructors the embedded
operations can produce are modelled. -/
inductive ErrorKind
  | invalidInput
  | permissionDenied
  | walletNotFound
  | privateKeyNotFound
  | balanceAdditionError
  | transactionNotFound
  | insufficientBalance
  | storageError
deriving DecidableEq, Repr

deriving instance DecidableEq for Except

/-- The flags of `DefaultWalletClientBuilder` that `build()` inspects
(`storage_set`, `index_set`, `transaction_builder_set`). -/
structure BuilderFlags where
  storageSet : Bool
  indexSet : Bool
  transactionBuilderSet : Bool
deriving DecidableEq, Repr

/-- `DefaultWalletClientBuilder::default()` (reached from
`DefaultWalletClient::builder()`): the unauthorized components with no flag
set. -/
def builderDefault : BuilderFlags :=
  { storageSet := false, indexSet := false, transactionBuilderSet := false }

/-- `with_wallet`: swaps the storage in and sets `storage_set`. -/
def withWallet (b : BuilderFlags) : BuilderFlags :=
  { b with storageSet := true }

/-- `with_transaction_read`: swaps the index in and sets `index_set`. -/
def withTransactionRead (b : BuilderFlags) : BuilderFlags :=
  { b with indexSet := true }

/-- `with_transaction_write`: swaps the transaction builder in and sets
`transaction_builder_set`. -/
def withTransactionWrite (b : BuilderFlags) : BuilderFlags :=
  { b with transactionBuilderSet := true }

/-- `DefaultWalletClientBuilder::build()`: succeeds iff
`!index_set && !transaction_builder_set || storage_set && index_set`, and
otherwise fails with invalid-input. -/
def build (b : BuilderFlags) : Except ErrorKind BuilderFlags :=
  if (!b.indexSet && !b.transactionBuilderSet) || (b.storageSet && b.indexSet) then
    Except.ok b
  else
    Except.error ErrorKind.invalidInput

/-! ## TransactionChange codec (`client-common/src/balance/transaction_change.rs`) -/

/-- Modelled from the spec: a UTC civil timestamp standing for chrono's
`DateTime<Utc>` (§3).  Offset conversion is not modelled: the codec only
produces and consumes the `+00:00` offset chrono prints for UTC. -/
structure DateTime where
  year : Nat
  month : Nat
  day : Nat
  hour : Nat
  minute : Nat
  second : Nat
  nanos : Nat
deriving DecidableEq, Repr

/-- Field ranges under which the RFC 3339 round trip is stated: four-digit
year, in-range month/day and time of day, sub-second nanoseconds. -/
def DateTime.Valid (t : DateTime) : Prop :=
  t.year < 10000 ∧ 1 ≤ t.month ∧ t.month ≤ 12 ∧ 1 ≤ t.day ∧ t.day ≤ 31 ∧
    t.hour < 24 ∧ t.minute < 60 ∧ t.second < 60 ∧ t.nanos < 1000000000

instance (t : DateTime) : Decidable t.Valid := by
  unfold DateTime.Valid
  infer_instance

/-- The `width` decimal digits of `n % 10^width`, most significant first, as
digit values. -/
def decDigitsV : Nat → Nat → List Nat
  | 0, _ => []
  | w + 1, n => (n / 10 ^ w) % 10 :: decDigitsV w n

/-- Zero-padded fixed-width ASCII decimal, as printed by chrono's `%Y`, `%m`,
`%d`, `%H`, `%M`, `%S` and fractional-second fields. -/
def decDigits (w n : Nat) : Bytes :=
  (decDigitsV w n).map (· + 48)

/-- Read exactly `width` ASCII digits MSB-first into an accumulator. -/
def readDigitsAcc : Nat → Nat → Bytes → Option (Nat × Bytes)
  | 0, acc, bs => some (acc, bs)
  | _ + 1, _, [] => none
  | w + 1, acc, b :: bs =>
    if 48 ≤ b ∧ b ≤ 57 then readDigitsAcc w (acc * 10 + (b - 48)) bs else none

/-- Read exactly `width` ASCII digits. -/
def readDigits (w : Nat) (bs : Bytes) : Option (Nat × Bytes) :=
  readDigitsAcc w 0 bs

/-- Expect one fixed byte (a separator of the RFC 3339 shape). -/
def expectByte (b : Nat) : Bytes → Option Bytes
  | [] => none
  | x :: xs => if x = b then some xs else none

/-- Take the leading run of ASCII digits, as digit values. -/
def takeDigits : Bytes → List Nat × Bytes
  | [] => ([], [])
  | b :: bs =>
    if 48 ≤ b ∧ b ≤ 57 then
      let (ds, r) := takeDigits bs
      ((b - 48) :: ds, r)
    else ([], b :: bs)

/-- Value of a digit list, MSB first. -/
def digitsVal (ds : List Nat) : Nat :=
  ds.foldl (fun a d => a * 10 + d) 0

/-- Modelled from the spec: chrono's `%.f` automatic precision — empty for
zero nanoseconds, else a dot plus 3, 6 or 9 digits. -/
def fracRfc3339 (nanos : Nat) : Bytes :=
  if nanos = 0 then []
  else if nanos % 1000000 = 0 then 46 :: decDigits 3 (nanos / 1000000)
  else if nanos % 1000 = 0 then 46 :: decDigits 6 (nanos / 1000)
  else 46 :: decDigits 9 nanos

/-- Modelled from the spec: `DateTime::to_rfc3339()` for a UTC time, as bytes:
`YYYY-MM-DDTHH:MM:SS[.fff[fff[fff]]]+00:00`. -/
def toRfc3339Bytes (t : DateTime) : Bytes :=
  decDigits 4 t.year ++ ((45 :: decDigits 2 t.month) ++ ((45 :: decDigits 2 t.day)
    ++ ((84 :: decDigits 2 t.hour) ++ ((58 :: decDigits 2 t.minute)
    ++ ((58 :: decDigits 2 t.second)
    ++ (fracRfc3339 t.nanos ++ [43, 48, 48, 58, 48, 48]))))))

/-- Optional fractional part: a dot followed by a digit run (truncated to
nanosecond precision), or nothing. -/
def parseFrac (bs : Bytes) : Option (Nat × Bytes) :=
  match bs with
  | b :: rest =>
    if b = 46 then
      let (ds, r) := takeDigits rest
      if ds.length = 0 then none
      else some (digitsVal (ds.take 9) * 10 ^ (9 - min ds.length 9), r)
    else some (0, b :: rest)
  | [] => some (0, [])

/-- A separator byte followed by a two-digit field. -/
def sepDigits2 (sep : Nat) (bs : Bytes) : Option (Nat × Bytes) := do
  let bs ← expectByte sep bs
  readDigits 2 bs

/-- The range checks `DateTime::from_str` applies, restricted to the
zero-offset forms `to_rfc3339` prints, plus full consumption of the string. -/
def rfc3339FieldsOk (month day hour minute second offHour offMin : Nat)
    (bs : Bytes) : Prop :=
  1 ≤ month ∧ month ≤ 12 ∧ 1 ≤ day ∧ day ≤ 31 ∧ hour < 24 ∧ minute < 60 ∧
    second < 60 ∧ offHour = 0 ∧ offMin = 0 ∧ bs = []

instance (month day hour minute second offHour offMin : Nat) (bs : Bytes) :
    Decidable (rfc3339FieldsOk month day hour minute second offHour offMin bs) := by
  unfold rfc3339FieldsOk
  infer_instance

/-- Modelled from the spec: `DateTime::<Utc>::from_str`, restricted to the
zero-offset forms `to_rfc3339` prints; the whole byte string must be
consumed. -/
def parseRfc3339 (bs : Bytes) : Option DateTime := do
  let (year, bs) ← readDigits 4 bs
  let (month, bs) ← sepDigits2 45 bs
  let (day, bs) ← sepDigits2 45 bs
  let (hour, bs) ← sepDigits2 84 bs
  let (minute, bs) ← sepDigits2 58 bs
  let (second, bs) ← sepDigits2 58 bs
  let (nanos, bs) ← parseFrac bs
  let (offHour, bs) ← sepDigits2 43 bs
  let (offMin, bs) ← sepDigits2 58 bs
  if rfc3339FieldsOk month day hour minute second offHour offMin bs then
    some ⟨year, month, day, hour, minute, second, nanos⟩
  else none

/-- Modelled from the spec: `k` fixed-width little-endian bytes of `n` (SCALE
integers, §6). -/
def natLE : Nat → Nat → Bytes
  | 0, _ => []
  | k + 1, n => n % 256 :: natLE k (n / 256)

/-- Read `k` little-endian bytes. -/
def readLE : Nat → Bytes → Option (Nat × Bytes)
  | 0, bs => some (0, bs)
  | _ + 1, [] => none
  | k + 1, b :: bs =>
    match readLE k bs with
    | some (v, r) => some (b + 256 * v, r)
    | none => none

/-- Read a fixed number of raw bytes. -/
def readBytes (k : Nat) (bs : Bytes) : Option (Bytes × Bytes) :=
  if k ≤ bs.length then some (bs.take k, bs.drop k) else none

/-- Minimal byte length of `n` (fuel-driven worker). -/
def byteLenGo : Nat → Nat → Nat
  | 0, _ => 1
  | f + 1, n => if n < 256 then 1 else 1 + byteLenGo f (n / 256)

/-- Minimal byte length of `n`. -/
def byteLen (n : Nat) : Nat := byteLenGo n n

/-- Modelled from the spec: the SCALE compact length prefix (four modes keyed
by the low two bits of the first byte). -/
def compactEncode (n : Nat) : Bytes :=
  if n < 64 then [n * 4]
  else if n < 16384 then natLE 2 (n * 4 + 1)
  else if n < 1073741824 then natLE 4 (n * 4 + 2)
  else ((byteLen n - 4) * 4 + 3) :: natLE (byteLen n) n

/-- Little-endian value of a byte list. -/
def leVal (bs : Bytes) : Nat :=
  bs.foldr (fun b acc => acc * 256 + b) 0

/-- Modelled from the spec: SCALE compact decoding. -/
def compactDecode (bs : Bytes) : Option (Nat × Bytes) :=
  match bs with
  | [] => none
  | b :: rest =>
    if b % 4 = 0 then some (b / 4, rest)
    else if b % 4 = 1 then
      match rest with
      | b2 :: r => some ((b + 256 * b2) / 4, r)
      | [] => none
    else if b % 4 = 2 then
      match rest with
      | b2 :: b3 :: b4 :: r =>
        some ((b + 256 * b2 + 65536 * b3 + 16777216 * b4) / 4, r)
      | _ => none
    else
      let k := b / 4 + 4
      if k ≤ rest.length then some (leVal (rest.take k), rest.drop k) else none

/-- `ExtendedAddr` (its single variant `OrTree(H256)`, matched exhaustively in
the source). -/
inductive ExtendedAddr
  | orTree (hash : Bytes)
deriving DecidableEq, Repr

/-- The root hash of an `ExtendedAddr`. -/
def ExtendedAddr.hashOf : ExtendedAddr → Bytes
  | .orTree h => h

/-- Modelled from the spec: SCALE encoding of `ExtendedAddr` — variant tag 0
plus the 32-byte root hash. -/
def ExtendedAddr.encode : ExtendedAddr → Bytes
  | .orTree h => 0 :: h

/-- Modelled from the spec: SCALE decoding of `ExtendedAddr`. -/
def ExtendedAddr.decode (bs : Bytes) : Option (ExtendedAddr × Bytes) :=
  match bs with
  | b :: rest =>
    if b = 0 then
      match readBytes 32 rest with
      | some (h, r) => some (.orTree h, r)
      | none => none
    else none
  | [] => none

/-- `BalanceChange`: an incoming or outgoing coin amount. -/
inductive BalanceChange
  | incoming (coin : Nat)
  | outgoing (coin : Nat)
deriving DecidableEq, Repr

/-- The coin amount of a `BalanceChange`. -/
def BalanceChange.coinOf : BalanceChange → Nat
  | .incoming c => c
  | .outgoing c => c

/-- Modelled from the spec: SCALE encoding of `BalanceChange` — variant tag
plus the fixed-width `u64` coin. -/
def BalanceChange.encode : BalanceChange → Bytes
  | .incoming c => 0 :: natLE 8 c
  | .outgoing c => 1 :: natLE 8 c

/-- Modelled from the spec: SCALE decoding of `BalanceChange`. -/
def BalanceChange.decode (bs : Bytes) : Option (BalanceChange × Bytes) :=
  match bs with
  | b :: rest =>
    if b = 0 then
      match readLE 8 rest with
      | some (c, r) => some (.incoming c, r)
      | none => none
    else if b = 1 then
      match readLE 8 rest with
      | some (c, r) => some (.outgoing c, r)
      | none => none
    else none
  | [] => none

/-- `TransactionChange`: id, affected address, balance change, block height
and block time. -/
structure TransactionChange where
  transactionId : Bytes
  address : ExtendedAddr
  balanceChange : BalanceChange
  blockHeight : Nat
  blockTime : DateTime
deriving DecidableEq, Repr

/-- `impl Encode for TransactionChange::encode_to`: the five fields in order,
the block time going through its RFC 3339 string (compact length prefix plus
the bytes). -/
def TransactionChange.encode (x : TransactionChange) : Bytes :=
  x.transactionId ++ (x.address.encode ++ (x.balanceChange.encode
    ++ (natLE 8 x.blockHeight
    ++ (compactEncode (toRfc3339Bytes x.blockTime).length ++ toRfc3339Bytes x.blockTime))))

/-- `impl Decode for TransactionChange::decode`: the five fields in order; the
block time is a SCALE string parsed back with `DateTime::from_str`. -/
def TransactionChange.decode (bs : Bytes) : Option TransactionChange := do
  let (txid, bs) ← readBytes 32 bs
  let (addr, bs) ← ExtendedAddr.decode bs
  let (bc, bs) ← BalanceChange.decode bs
  let (height, bs) ← readLE 8 bs
  let (slen, bs) ← compactDecode bs
  if slen ≤ bs.length then
    let t ← parseRfc3339 (bs.take slen)
    some ⟨txid, addr, bc, height, t⟩
  else none

/-- The value ranges carried by the Rust types: 32-byte hashes, `u64` coin and
height, a chrono-representable block time. -/
def TransactionChange.WellFormed (x : TransactionChange) : Prop :=
  x.transactionId.length = 32 ∧ x.address.hashOf.length = 32 ∧
    x.balanceChange.coinOf < 18446744073709551616 ∧
    x.blockHeight < 18446744073709551616 ∧ x.blockTime.Valid

instance (x : TransactionChange) : Decidable x.WellFormed := by
  unfold TransactionChange.WellFormed
  infer_instance

/-- A concrete change used by the codec witness. -/
def sampleChange : TransactionChange :=
  { transactionId := List.replicate 32 7
    address := .orTree (List.replicate 32 9)
    balanceChange := .incoming 30
    blockHeight := 2
    blockTime := ⟨2019, 6, 20, 12, 0, 0, 123456789⟩ }

/-! ## Wallet client reads (`client-core/src/wallet/default_wallet_client.rs`) -/

/-- `AddressDetails` (client-index): balance, transaction history, unspent
transactions (`TxoPointer → TxOut`, modelled as pairs of (txid, index) and
(address, value)). -/
structure AddressDetails where
  balance : Nat
  transactionHistory : List TransactionChange
  unspentTransactions : List ((Bytes × Nat) × (ExtendedAddr × Nat))
deriving DecidableEq, Repr

/-- Modelled from the spec: the per-wallet record the WalletService protects;
the stored root hashes back the wallet's transfer addresses (§3, §4.F). -/
structure WalletRecord where
  passphrase : String
  rootHashes : List Bytes
deriving DecidableEq, Repr

/-- The wallet client: the modelled WalletService table plus oracles for the
external Index collaborator, `KeyService::private_key`,
`RootHashService::required_signers` / `generate_proof`, and
`PrivateKey::schnorr_sign` (all outside the given sources). -/
structure WalletClientM where
  wallets : String → Option WalletRecord
  index : ExtendedAddr → Except ErrorKind AddressDetails
  privateKey : Bytes → String → Except ErrorKind (Option Nat)
  requiredSigners : Bytes → String → Except ErrorKind Nat
  rootProof : Bytes → List Bytes → String → Except ErrorKind (List Bytes)
  schnorrSign : Nat → Bytes → Except ErrorKind Bytes

/-- Modelled from the spec: `WalletService::transfer_addresses` —
wallet-not-found for a missing name, permission-denied under a wrong
passphrase (never a silently empty result), else the OrTree addresses of the
wallet's root hashes (§4.F). -/
def transferAddresses (c : WalletClientM) (name passphrase : String) :
    Except ErrorKind (List ExtendedAddr) :=
  match c.wallets name with
  | none => Except.error ErrorKind.walletNotFound
  | some w =>
    if w.passphrase = passphrase then
      Except.ok (w.rootHashes.map ExtendedAddr.orTree)
    else
      Except.error ErrorKind.permissionDenied

/-- `collect::<Result<Vec<_>>>()`: the first error aborts the collection. -/
def mapCollect (f : α → Except ErrorKind β) : List α → Except ErrorKind (List β)
  | [] => Except.ok []
  | a :: rest =>
    match f a with
    | Except.ok b =>
      match mapCollect f rest with
      | Except.ok bs => Except.ok (b :: bs)
      | Except.error e => Except.error e
    | Except.error e => Except.error e

/-- Modelled from the spec: the `Coin` upper bound `MAX_COIN` (§3). -/
def MAX_COIN : Nat := 10000000000000000000

/-- Worker for `sumCoins`: checked addition, failing as soon as a partial sum
exceeds `MAX_COIN`. -/
def sumCoinsGo : Nat → List Nat → Option Nat
  | acc, [] => some acc
  | acc, coin :: rest =>
    if acc + coin ≤ MAX_COIN then sumCoinsGo (acc + coin) rest else none

/-- Modelled from the spec: `sum_coins` — checked coin addition, never
wrapping or saturating (§3, §8). -/
def sumCoins (coins : List Nat) : Option Nat := sumCoinsGo 0 coins

/-- `DefaultWalletClient::balance`: passphrase-checked transfer addresses, the
per-address balances from the index, then `sum_coins` with failure mapped to
balance-addition-error. -/
def walletBalance (c : WalletClientM) (name passphrase : String) : Except ErrorKind Nat :=
  match transferAddresses c name passphrase with
  | Except.error e => Except.error e
  | Except.ok addresses =>
    match mapCollect (fun a => (c.index a).map AddressDetails.balance) addresses with
    | Except.error e => Except.error e
    | Except.ok balances =>
      match sumCoins balances with
      | some total => Except.ok total
      | none => Except.error ErrorKind.balanceAdditionError

/-- `DefaultWalletClient::history`: the per-address histories from the index,
flattened in address order (no re-sort). -/
def walletHistory (c : WalletClientM) (name passphrase : String) :
    Except ErrorKind (List TransactionChange) :=
  match transferAddresses c name passphrase with
  | Except.error e => Except.error e
  | Except.ok addresses =>
    match mapCollect (fun a => (c.index a).map AddressDetails.transactionHistory)
        addresses with
    | Except.error e => Except.error e
    | Except.ok histories => Except.ok histories.flatten

/-- `DefaultWalletClient::required_cosigners`: a passphrase check through
`transfer_addresses`, then the root-hash service. -/
def requiredCosigners (c : WalletClientM) (name passphrase : String) (rootHash : Bytes) :
    Except ErrorKind Nat :=
  match transferAddresses c name passphrase with
  | Except.error e => Except.error e
  | Except.ok _ => c.requiredSigners rootHash passphrase

/-- `DefaultWalletClient::generate_proof`: a passphrase check through
`transfer_addresses`, then the root-hash service on the OrTree root. -/
def generateProofW (c : WalletClientM) (name passphrase : String)
    (address : ExtendedAddr) (publicKeys : List Bytes) :
    Except ErrorKind (List Bytes) :=
  match transferAddresses c name passphrase with
  | Except.error e => Except.error e
  | Except.ok _ =>
    match address with
    | ExtendedAddr.orTree a => c.rootProof a publicKeys passphrase

/-- `MultiSigWalletClient::schnorr_signature`: a passphrase check through
`transfer_addresses`, the private key (or private-key-not-found), then the
Schnorr signing primitive. -/
def schnorrSignature (c : WalletClientM) (name passphrase : String)
    (message publicKey : Bytes) : Except ErrorKind Bytes :=
  match transferAddresses c name passphrase with
  | Except.error e => Except.error e
  | Except.ok _ =>
    match c.privateKey publicKey passphrase with
    | Except.error e => Except.error e
    | Except.ok none => Except.error ErrorKind.privateKeyNotFound
    | Except.ok (some k) => c.schnorrSign k message

/-- Sortedness of a history by block height — a necessary condition for
sortedness by `(block_height, position_in_block)`. -/
def sortedByHeight : List TransactionChange → Bool
  | [] => true
  | [_] => true
  | a :: b :: rest =>
    decide (a.blockHeight ≤ b.blockHeight) && sortedByHeight (b :: rest)

/-- A history entry at the given block height, for the wallet witnesses. -/
def histChange (ht : Nat) : TransactionChange :=
  { transactionId := List.replicate 32 0
    address := .orTree (List.replicate 32 0)
    balanceChange := .incoming 1
    blockHeight := ht
    blockTime := ⟨2019, 1, 1, 0, 0, 0, 0⟩ }

/-- A client whose wallet `"w"` (passphrase `"p"`) has two transfer addresses
whose per-address histories are each sorted, the first address holding the
later change. -/
def twoAddrClient : WalletClientM where
  wallets := fun n =>
    if n = "w" then some { passphrase := "p", rootHashes := [[1], [2]] } else none
  index := fun a =>
    if a = ExtendedAddr.orTree [1] then
      Except.ok { balance := 0, transactionHistory := [histChange 2],
                  unspentTransactions := [] }
    else if a = ExtendedAddr.orTree [2] then
      Except.ok { balance := 0, transactionHistory := [histChange 1],
                  unspentTransactions := [] }
    else
      Except.ok { balance := 0, transactionHistory := [], unspentTransactions := [] }
  privateKey := fun _ _ => Except.error ErrorKind.privateKeyNotFound
  requiredSigners := fun _ _ => Except.error ErrorKind.invalidInput
  rootProof := fun _ _ _ => Except.error ErrorKind.invalidInput
  schnorrSign := fun _ _ => Except.error ErrorKind.invalidInput

/-- The index answer used by `okClient`. -/
def okDetails : ExtendedAddr → AddressDetails := fun a =>
  if a = ExtendedAddr.orTree [1] then
    { balance := 10, transactionHistory := [histChange 1], unspentTransactions := [] }
  else
    { balance := 20, transactionHistory := [histChange 2], unspentTransactions := [] }

/-- A fully answering client for the wallet witnesses: wallet `"w"`,
passphrase `"p"`, two transfer addresses, all service oracles succeeding. -/
def okClient : WalletClientM where
  wallets := fun n =>
    if n = "w" then some { passphrase := "p", rootHashes := [[1], [2]] } else none
  index := fun a => Except.ok (okDetails a)
  privateKey := fun _ _ => Except.ok (some 5)
  requiredSigners := fun _ _ => Except.ok 2
  rootProof := fun _ _ _ => Except.ok [[9]]
  schnorrSign := fun _ _ => Except.ok [7]

/-- The index answer used by `bigClient`: balances that overflow `MAX_COIN`. -/
def bigDetails : ExtendedAddr → AddressDetails := fun a =>
  if a = ExtendedAddr.orTree [1] then
    { balance := MAX_COIN, transactionHistory := [], unspentTransactions := [] }
  else
    { balance := 1, transactionHistory := [], unspentTransactions := [] }

/-- A client whose two address balances sum past `MAX_COIN`. -/
def bigClient : WalletClientM where
  wallets := fun n =>
    if n = "w" then some { passphrase := "p", rootHashes := [[1], [2]] } else none
  index := fun a => Except.ok (bigDetails a)
  privateKey := fun _ _ => Except.error ErrorKind.privateKeyNotFound
  requiredSigners := fun _ _ => Except.error ErrorKind.invalidInput
  rootProof := fun _ _ _ => Except.error ErrorKind.invalidInput
  schnorrSign := fun _ _ => Except.error ErrorKind.invalidInput

/-! ## Query-handler theorems -/

/-- C2: for a `store` query with `prove`, the height used to select the
historical app-hash is the chain tip height whenever the requested height is 0
or exceeds the tip, and the exact requested height otherwise. -/
theorem query_store_height_policy (reqHeight tip : Int) :
    ((reqHeight = 0 ∨ tip < reqHeight) → selectHeight reqHeight tip = tip) ∧
    (reqHeight ≠ 0 → reqHeight ≤ tip → selectHeight reqHeight tip = reqHeight) := by
  constructor
  · intro h
    unfold selectHeight
    rw [if_pos h]
  · intro h1 h2
    unfold selectHeight
    rw [if_neg (by omega)]

theorem query_store_height_policy_witness :
    selectHeight 0 5 = 5 ∧ selectHeight 7 5 = 5 ∧ selectHeight 3 5 = 3 :=
  ⟨(query_store_height_policy 0 5).1 (Or.inl rfl),
   (query_store_height_policy 7 5).1 (Or.inr (by norm_num)),
   (query_store_height_policy 3 5).2 (by norm_num) (by norm_num)⟩

/-- C1: for a `store` query with `prove` whose transaction body and witness are
both in storage (and whose prove path completes), the response proof is
exactly: the `"transaction"` op (key = the decoded tree's root hash, data = the
encoded Merkle proof) followed by the `"witness"` op (key = `TXID_HASH_ID`,
data = `hash(witness)`) when `generate_proof(txid)` returns a proof, and
exactly the witness op alone when it returns none. -/
theorem query_store_prove_ops
    (app : ChainNodeApp) (req : RequestQuery) (body wit appHash blob : Bytes)
    (tree : MerkleTree)
    (hpath : req.path = "store") (hprove : req.prove = true)
    (hlen : req.data.length = 32)
    (hbody : app.db Col.bodies req.data = some body)
    (hwit : app.db Col.witness req.data = some wit)
    (hah : app.db Col.appStates
      (encodeVarI64 (selectHeight req.height (lastHeightOf app))) = some appHash)
    (hblob : app.db Col.merkleProofs appHash = some blob)
    (htree : MerkleTree.decode blob = some tree) :
    queryHandler app req = some
      { code := 0, value := body, log := "",
        proof := some (match tree.generateProof req.data with
          | none => [getWitnessProofOp wit]
          | some merkleProof =>
              [intoProofOp tree.rootHash merkleProof, getWitnessProofOp wit]) } := by
  have hp2p : (pathLeads "store" "/p2p" || pathLeads "store" "p2p") = false := by decide
  simp only [queryHandler, hpath, hprove, hp2p, Bool.false_eq_true, if_false, lookup,
    hbody, hwit, hah, hblob, htree, ResponseQuery.new, hlen, and_self, if_true,
    String.reduceEq, reduceIte]



theorem query_store_prove_ops_witness :
    queryHandler okApp { path := "store", data := okTxid, height := 0, prove := true } =
      some { code := 0, value := [9], log := "",
             proof := some [intoProofOp (MerkleTree.mk [okTxid]).rootHash ⟨0, okTxid⟩,
                            getWitnessProofOp [8]] } := by
  have h := query_store_prove_ops okApp
    { path := "store", data := okTxid, height := 0, prove := true }
    [9] [8] [3] okTxid ⟨[okTxid]⟩ rfl rfl (by decide)
    (by decide) (by decide) (by decide) (by decide) (by decide)
  rw [h]
  decide

/-- C3: for a `store` query with `prove` whose transaction body is found but
whose witness is absent from storage, the response has code 2, its log is the
line `"proof error: witness not found"`, and no proof is attached. -/
theorem query_store_witness_missing
    (app : ChainNodeApp) (req : RequestQuery) (v : Bytes)
    (hpath : req.path = "store") (hprove : req.prove = true)
    (hbody : app.db Col.bodies req.data = some v)
    (hwit : app.db Col.witness req.data = none) :
    queryHandler app req = some
      { code := 2, value := v, log := "proof error: witness not found", proof := none } := by
  have hp2p : (pathLeads "store" "/p2p" || pathLeads "store" "p2p") = false := by decide
  simp only [queryHandler, hpath, hprove, hp2p, Bool.false_eq_true, if_false, lookup,
    hbody, hwit, ResponseQuery.new, and_self, true_and, if_true, String.reduceEq, reduceIte]
  rfl


theorem query_store_witness_missing_witness :
    queryHandler noWitnessApp { path := "store", data := okTxid, height := 0, prove := true } =
      some { code := 2, value := [9], log := "proof error: witness not found",
             proof := none } :=
  query_store_witness_missing noWitnessApp
    { path := "store", data := okTxid, height := 0, prove := true }
    [9] rfl rfl (by decide) (by decide)


/-- C4 (code bug): a well-typed `store` query with `prove` set and a negative
height reaches the source's `.unwrap()` on the missing per-height app-hash:
the embedded handler returns `none` (a process abort), not a `ResponseQuery`
with a non-zero code and a log line. -/
theorem query_store_prove_abort_eval :
    queryHandler panicApp
      { path := "store", data := okTxid, height := -1, prove := true } = none := by
  decide

/-- C10: an `account` query whose request data does not decode as a staking
address answers code 3 (the same code as an uninitialised node, not the code 1
of the other paths' missing lookups) with an explanatory log and an empty
value. -/
theorem query_account_invalid_address
    (app : ChainNodeApp) (req : RequestQuery)
    (hpath : req.path = "account")
    (hdec : decodeStakedStateAddress req.data = none) :
    queryHandler app req = some
      { code := 3, value := [],
        log := "account lookup failed (either invalid address or node not correctly restored / initialized)",
        proof := none } := by
  have hp2p : (pathLeads "account" "/p2p" || pathLeads "account" "p2p") = false := by decide
  simp only [queryHandler, hpath, hp2p, Bool.false_eq_true, if_false, ResponseQuery.new,
    String.reduceEq, reduceIte]
  cases happ : app.lastState <;> simp [hdec]

theorem query_account_invalid_address_witness :
    queryHandler panicApp { path := "account", data := [1, 2, 3], height := 0, prove := false } =
      some
        { code := 3, value := [],
          log := "account lookup failed (either invalid address or node not correctly restored / initialized)",
          proof := none } :=
  query_account_invalid_address panicApp
    { path := "account", data := [1, 2, 3], height := 0, prove := false }
    rfl (by decide)

/-! ## Builder theorems -/

/-- C5 counterexample: `build()` on the default builder — no storage, no
index, no transaction writer, so none of the claim's three allowed
combinations — nevertheless succeeds (this is the fully unauthorized client
the source's own tests construct). -/
theorem builder_build_no_storage_ok :
    build builderDefault = Except.ok builderDefault ∧ builderDefault.storageSet = false := by
  decide

/-- C5 (amended): `build()` succeeds exactly for the four combinations
nothing-set, storage only, storage+index, and storage+index+writer; every
configuration with a transaction writer but no index fails with invalid-input;
hence every successfully built client satisfies "write implies index". -/
theorem builder_build_characterization (b : BuilderFlags) :
    ((build b).isOk = true ↔
      (b = ⟨false, false, false⟩ ∨ b = ⟨true, false, false⟩ ∨
       b = ⟨true, true, false⟩ ∨ b = ⟨true, true, true⟩)) ∧
    (b.transactionBuilderSet = true → b.indexSet = false →
      build b = Except.error ErrorKind.invalidInput) ∧
    ((build b).isOk = true → b.transactionBuilderSet = true → b.indexSet = true) := by
  rcases b with ⟨s, i, t⟩
  cases s <;> cases i <;> cases t <;> decide

theorem builder_build_characterization_witness :
    build ⟨true, false, true⟩ = Except.error ErrorKind.invalidInput :=
  (builder_build_characterization ⟨true, false, true⟩).2.1 rfl rfl

/-! ## Codec lemmas and the TransactionChange round trip -/

lemma decDigitsV_length (w n : Nat) : (decDigitsV w n).length = w := by
  induction w generalizing n with
  | zero => rfl
  | succ w ih => simp [decDigitsV, ih]

lemma readDigitsAcc_decDigits (w : Nat) : ∀ (n acc : Nat) (rest : Bytes),
    readDigitsAcc w acc ((decDigitsV w n).map (· + 48) ++ rest) =
      some (acc * 10 ^ w + n % 10 ^ w, rest) := by
  induction w with
  | zero =>
    intro n acc rest
    simp [decDigitsV, readDigitsAcc, Nat.mod_one]
  | succ w ih =>
    intro n acc rest
    have hd : n / 10 ^ w % 10 < 10 := Nat.mod_lt _ (by norm_num)
    simp only [decDigitsV, List.map_cons, List.cons_append, readDigitsAcc]
    rw [if_pos (by omega)]
    have hsub : n / 10 ^ w % 10 + 48 - 48 = n / 10 ^ w % 10 := by omega
    simp only [List.append_eq]
    rw [hsub, ih]
    have harith : (acc * 10 + n / 10 ^ w % 10) * 10 ^ w + n % 10 ^ w
        = acc * 10 ^ (w + 1) + n % 10 ^ (w + 1) := by
      rw [pow_succ, Nat.mod_mul]
      ring
    rw [harith]

lemma readDigits_decDigits (w n : Nat) (rest : Bytes) (h : n < 10 ^ w) :
    readDigits w (decDigits w n ++ rest) = some (n, rest) := by
  unfold readDigits decDigits
  rw [readDigitsAcc_decDigits]
  simp [Nat.mod_eq_of_lt h]

lemma expectByte_cons (b : Nat) (rest : Bytes) : expectByte b (b :: rest) = some rest := by
  simp [expectByte]

lemma sepDigits2_cons (sep n : Nat) (rest : Bytes) (h : n < 100) :
    sepDigits2 sep ((sep :: decDigits 2 n) ++ rest) = some (n, rest) := by
  unfold sepDigits2
  simp only [List.cons_append, expectByte_cons, Option.some_bind]
  exact readDigits_decDigits 2 n rest (by omega)

lemma takeDigits_decDigits (w : Nat) : ∀ (n b : Nat) (r : Bytes), ¬(48 ≤ b ∧ b ≤ 57) →
    takeDigits ((decDigitsV w n).map (· + 48) ++ b :: r) = (decDigitsV w n, b :: r) := by
  induction w with
  | zero =>
    intro n b r hb
    simp [decDigitsV, takeDigits, hb]
  | succ w ih =>
    intro n b r hb
    have hd : n / 10 ^ w % 10 < 10 := Nat.mod_lt _ (by norm_num)
    have hsub : n / 10 ^ w % 10 + 48 - 48 = n / 10 ^ w % 10 := by omega
    simp only [decDigitsV, List.map_cons, List.cons_append, takeDigits]
    rw [if_pos (by omega)]
    simp only [List.append_eq]
    rw [ih n b r hb]
    simp [hsub]

lemma foldl_decDigitsV (w : Nat) : ∀ (n acc : Nat),
    (decDigitsV w n).foldl (fun a d => a * 10 + d) acc = acc * 10 ^ w + n % 10 ^ w := by
  induction w with
  | zero =>
    intro n acc
    simp [decDigitsV, Nat.mod_one]
  | succ w ih =>
    intro n acc
    simp only [decDigitsV, List.foldl_cons]
    rw [ih, pow_succ, Nat.mod_mul]
    ring

lemma digitsVal_decDigitsV (w n : Nat) : digitsVal (decDigitsV w n) = n % 10 ^ w := by
  unfold digitsVal
  rw [foldl_decDigitsV]
  simp

lemma parseFrac_dot (w m : Nat) (r : Bytes) (h9 : w ≤ 9) (hw : w ≠ 0) (hm : m < 10 ^ w) :
    parseFrac ((46 :: decDigits w m) ++ 43 :: r) = some (m * 10 ^ (9 - w), 43 :: r) := by
  simp only [List.cons_append, parseFrac, if_pos rfl, decDigits]
  rw [takeDigits_decDigits w m 43 r (by decide)]
  simp only [decDigitsV_length]
  rw [if_neg hw, List.take_of_length_le (by simp [decDigitsV_length]; omega),
    digitsVal_decDigitsV, Nat.mod_eq_of_lt hm, Nat.min_eq_left h9]
  simp

lemma parseFrac_frac (nanos : Nat) (r : Bytes) (h : nanos < 1000000000) :
    parseFrac (fracRfc3339 nanos ++ 43 :: r) = some (nanos, 43 :: r) := by
  unfold fracRfc3339
  by_cases h0 : nanos = 0
  · subst h0
    simp [parseFrac]
  · rw [if_neg h0]
    by_cases h6 : nanos % 1000000 = 0
    · rw [if_pos h6]
      have hm : nanos / 1000000 < 10 ^ 3 := by omega
      rw [parseFrac_dot 3 _ r (by omega) (by omega) hm]
      congr 2
      have := Nat.div_mul_cancel (Nat.dvd_of_mod_eq_zero h6)
      simpa using this
    · rw [if_neg h6]
      by_cases h3 : nanos % 1000 = 0
      · rw [if_pos h3]
        have hm : nanos / 1000 < 10 ^ 6 := by omega
        rw [parseFrac_dot 6 _ r (by omega) (by omega) hm]
        congr 2
        have := Nat.div_mul_cancel (Nat.dvd_of_mod_eq_zero h3)
        simpa using this
      · rw [if_neg h3]
        rw [parseFrac_dot 9 _ r (by omega) (by omega) (by omega)]
        simp

lemma parseRfc3339_toRfc3339 (t : DateTime) (h : t.Valid) :
    parseRfc3339 (toRfc3339Bytes t) = some t := by
  obtain ⟨year, month, day, hour, minute, second, nanos⟩ := t
  simp only [DateTime.Valid] at h
  obtain ⟨h1, h2, h3, h4, h5, h6, h7, h8, h9⟩ := h
  have hY : ∀ rest, readDigits 4 (decDigits 4 year ++ rest) = some (year, rest) :=
    fun rest => readDigits_decDigits 4 year rest (by omega)
  have hMo : ∀ rest, sepDigits2 45 ((45 :: decDigits 2 month) ++ rest) = some (month, rest) :=
    fun rest => sepDigits2_cons 45 month rest (by omega)
  have hD : ∀ rest, sepDigits2 45 ((45 :: decDigits 2 day) ++ rest) = some (day, rest) :=
    fun rest => sepDigits2_cons 45 day rest (by omega)
  have hH : ∀ rest, sepDigits2 84 ((84 :: decDigits 2 hour) ++ rest) = some (hour, rest) :=
    fun rest => sepDigits2_cons 84 hour rest (by omega)
  have hMi : ∀ rest, sepDigits2 58 ((58 :: decDigits 2 minute) ++ rest) = some (minute, rest) :=
    fun rest => sepDigits2_cons 58 minute rest (by omega)
  have hS : ∀ rest, sepDigits2 58 ((58 :: decDigits 2 second) ++ rest) = some (second, rest) :=
    fun rest => sepDigits2_cons 58 second rest (by omega)
  have hFr : ∀ r, parseFrac (fracRfc3339 nanos ++ 43 :: r) = some (nanos, 43 :: r) :=
    fun r => parseFrac_frac nanos r h9
  have hOffH : sepDigits2 43 (43 :: [48, 48, 58, 48, 48]) = some (0, [58, 48, 48]) := by
    decide
  have hOffM : sepDigits2 58 [58, 48, 48] = some (0, []) := by decide
  have hOk : rfc3339FieldsOk month day hour minute second 0 0 [] := by
    unfold rfc3339FieldsOk
    exact ⟨h2, h3, h4, h5, h6, h7, h8, rfl, rfl, rfl⟩
  simp only [toRfc3339Bytes, parseRfc3339]
  simp only [hY, Option.bind_eq_bind, Option.some_bind, hMo, hD, hH, hMi, hS, hFr,
    hOffH, hOffM]
  rw [if_pos hOk]

lemma readLE_natLE (k : Nat) : ∀ (n : Nat) (rest : Bytes),
    readLE k (natLE k n ++ rest) = some (n % 256 ^ k, rest) := by
  induction k with
  | zero =>
    intro n rest
    simp [natLE, readLE, Nat.mod_one]
  | succ k ih =>
    intro n rest
    simp only [natLE, List.cons_append, readLE, List.append_eq, ih]
    rw [pow_succ', Nat.mod_mul]

lemma readLE_natLE_of_lt (k n : Nat) (rest : Bytes) (h : n < 256 ^ k) :
    readLE k (natLE k n ++ rest) = some (n, rest) := by
  rw [readLE_natLE, Nat.mod_eq_of_lt h]

lemma readBytes_append (k : Nat) (l rest : Bytes) (h : l.length = k) :
    readBytes k (l ++ rest) = some (l, rest) := by
  subst h
  unfold readBytes
  rw [if_pos (by simp), List.take_left, List.drop_left]

lemma extendedAddr_decode_encode (a : ExtendedAddr) (rest : Bytes)
    (h : a.hashOf.length = 32) :
    ExtendedAddr.decode (a.encode ++ rest) = some (a, rest) := by
  cases a with
  | orTree hsh =>
    simp only [ExtendedAddr.hashOf] at h
    simp only [ExtendedAddr.encode, List.cons_append, ExtendedAddr.decode]
    rw [readBytes_append 32 hsh rest h]
    simp

lemma balanceChange_decode_encode (b : BalanceChange) (rest : Bytes)
    (h : b.coinOf < 18446744073709551616) :
    BalanceChange.decode (b.encode ++ rest) = some (b, rest) := by
  have h256 : (256 : Nat) ^ 8 = 18446744073709551616 := by norm_num
  cases b with
  | incoming c =>
    simp only [BalanceChange.coinOf] at h
    simp only [BalanceChange.encode, List.cons_append, BalanceChange.decode]
    rw [readLE_natLE_of_lt 8 c rest (by omega)]
    simp
  | outgoing c =>
    simp only [BalanceChange.coinOf] at h
    simp only [BalanceChange.encode, List.cons_append, BalanceChange.decode]
    rw [readLE_natLE_of_lt 8 c rest (by omega)]
    simp

lemma compactDecode_encode_small (n : Nat) (rest : Bytes) (h : n < 64) :
    compactDecode (compactEncode n ++ rest) = some (n, rest) := by
  unfold compactEncode
  rw [if_pos h]
  simp only [List.cons_append, List.nil_append, compactDecode]
  rw [if_pos (by omega : n * 4 % 4 = 0)]
  have hq : n * 4 / 4 = n := by omega
  rw [hq]

lemma toRfc3339Bytes_length_lt (t : DateTime) : (toRfc3339Bytes t).length < 64 := by
  unfold toRfc3339Bytes fracRfc3339
  split_ifs <;> simp [decDigits, decDigitsV_length]

/-- C9: for every well-formed `TransactionChange` value `x` (32-byte hashes,
`u64` coin and height, chrono-representable time), `decode (encode x) = x` —
in particular the block time survives the round trip through its RFC 3339
string encoding — and `encode` is deterministic: equal values produce
identical bytes. -/
theorem transaction_change_codec (x : TransactionChange) (h : x.WellFormed) :
    TransactionChange.decode (TransactionChange.encode x) = some x ∧
      ∀ y : TransactionChange, y = x →
        TransactionChange.encode y = TransactionChange.encode x := by
  refine ⟨?_, fun y hy => by rw [hy]⟩
  simp only [TransactionChange.WellFormed] at h
  obtain ⟨hTx, hAddr, hCoin, hHt, hTime⟩ := h
  have r1 : ∀ rest, readBytes 32 (x.transactionId ++ rest) = some (x.transactionId, rest) :=
    fun rest => readBytes_append 32 _ rest hTx
  have r2 : ∀ rest, ExtendedAddr.decode (x.address.encode ++ rest) = some (x.address, rest) :=
    fun rest => extendedAddr_decode_encode _ rest hAddr
  have r3 : ∀ rest,
      BalanceChange.decode (x.balanceChange.encode ++ rest) = some (x.balanceChange, rest) :=
    fun rest => balanceChange_decode_encode _ rest hCoin
  have r4 : ∀ rest, readLE 8 (natLE 8 x.blockHeight ++ rest) = some (x.blockHeight, rest) :=
    fun rest => readLE_natLE_of_lt 8 _ rest (by norm_num at hHt ⊢; omega)
  have r5 : compactDecode
      (compactEncode (toRfc3339Bytes x.blockTime).length ++ toRfc3339Bytes x.blockTime) =
      some ((toRfc3339Bytes x.blockTime).length, toRfc3339Bytes x.blockTime) :=
    compactDecode_encode_small _ _ (toRfc3339Bytes_length_lt _)
  have r6 : parseRfc3339 (toRfc3339Bytes x.blockTime) = some x.blockTime :=
    parseRfc3339_toRfc3339 _ hTime
  simp only [TransactionChange.encode, TransactionChange.decode, r1, Option.bind_eq_bind,
    Option.some_bind, r2, r3, r4, r5]
  rw [if_pos (le_refl _)]
  rw [List.take_length, r6]
  rfl

theorem transaction_change_codec_witness :
    TransactionChange.decode (TransactionChange.encode sampleChange) = some sampleChange :=
  (transaction_change_codec sampleChange (by decide)).1


/-! ## Wallet client theorems -/

lemma mapCollect_ok {α β : Type} (f : α → Except ErrorKind β) (g : α → β) :
    ∀ l : List α, (∀ a ∈ l, f a = Except.ok (g a)) →
      mapCollect f l = Except.ok (l.map g) := by
  intro l
  induction l with
  | nil =>
    intro _
    rfl
  | cons a rest ih =>
    intro h
    unfold mapCollect
    rw [h a (by simp), ih (fun b hb => h b (by simp [hb]))]
    rfl

lemma sumCoinsGo_le : ∀ (l : List Nat) (acc : Nat), acc + l.sum ≤ MAX_COIN →
    sumCoinsGo acc l = some (acc + l.sum) := by
  intro l
  induction l with
  | nil =>
    intro acc _
    simp [sumCoinsGo]
  | cons c rest ih =>
    intro acc h
    simp only [List.sum_cons] at h
    unfold sumCoinsGo
    rw [if_pos (by omega), ih (acc + c) (by omega)]
    simp only [List.sum_cons]
    congr 1
    omega

lemma sumCoinsGo_gt : ∀ (l : List Nat) (acc : Nat), acc ≤ MAX_COIN →
    MAX_COIN < acc + l.sum → sumCoinsGo acc l = none := by
  intro l
  induction l with
  | nil =>
    intro acc h1 h2
    simp at h2
    omega
  | cons c rest ih =>
    intro acc h1 h2
    simp only [List.sum_cons] at h2
    unfold sumCoinsGo
    by_cases hc : acc + c ≤ MAX_COIN
    · rw [if_pos hc, ih (acc + c) hc (by omega)]
    · rw [if_neg hc]

lemma sumCoins_le (l : List Nat) (h : l.sum ≤ MAX_COIN) : sumCoins l = some l.sum := by
  unfold sumCoins
  rw [sumCoinsGo_le l 0 (by omega)]
  simp

lemma sumCoins_gt (l : List Nat) (h : MAX_COIN < l.sum) : sumCoins l = none := by
  unfold sumCoins
  rw [sumCoinsGo_gt l 0 (by simp [MAX_COIN]) (by omega)]

/-- C6: for a wallet stored under `name`, every listed read
(`transfer_addresses`, `balance`, `history`, `required_cosigners`,
`generate_proof`, `schnorr_signature`) under a passphrase different from the
wallet's fails with permission-denied and never silently returns an empty
result, while under the correct passphrase the same reads succeed (given the
index and the key/root-hash service oracles answer). -/
theorem wallet_reads_passphrase_gate
    (c : WalletClientM) (name passphrase : String) (w : WalletRecord)
    (hw : c.wallets name = some w) (hp : passphrase ≠ w.passphrase)
    (D : ExtendedAddr → AddressDetails)
    (hidx : ∀ a, c.index a = Except.ok (D a))
    (hsum : ((w.rootHashes.map ExtendedAddr.orTree).map
      (fun a => (D a).balance)).sum ≤ MAX_COIN)
    (rootHash : Bytes) (k : Nat)
    (hrs : c.requiredSigners rootHash w.passphrase = Except.ok k)
    (publicKeys : List Bytes) (addrHash : Bytes) (pr : List Bytes)
    (hpr : c.rootProof addrHash publicKeys w.passphrase = Except.ok pr)
    (pub : Bytes) (priv : Nat)
    (hpk : c.privateKey pub w.passphrase = Except.ok (some priv))
    (message sig : Bytes) (hsig : c.schnorrSign priv message = Except.ok sig) :
    transferAddresses c name passphrase = Except.error ErrorKind.permissionDenied ∧
    walletBalance c name passphrase = Except.error ErrorKind.permissionDenied ∧
    walletHistory c name passphrase = Except.error ErrorKind.permissionDenied ∧
    requiredCosigners c name passphrase rootHash =
      Except.error ErrorKind.permissionDenied ∧
    generateProofW c name passphrase (ExtendedAddr.orTree addrHash) publicKeys =
      Except.error ErrorKind.permissionDenied ∧
    schnorrSignature c name passphrase message pub =
      Except.error ErrorKind.permissionDenied ∧
    transferAddresses c name w.passphrase =
      Except.ok (w.rootHashes.map ExtendedAddr.orTree) ∧
    (walletBalance c name w.passphrase).isOk = true ∧
    (walletHistory c name w.passphrase).isOk = true ∧
    requiredCosigners c name w.passphrase rootHash = Except.ok k ∧
    generateProofW c name w.passphrase (ExtendedAddr.orTree addrHash) publicKeys =
      Except.ok pr ∧
    schnorrSignature c name w.passphrase message pub = Except.ok sig := by
  have hT : transferAddresses c name passphrase =
      Except.error ErrorKind.permissionDenied := by
    simp only [transferAddresses, hw]
    rw [if_neg (fun e => hp (Eq.symm e))]
  have hTok : transferAddresses c name w.passphrase =
      Except.ok (w.rootHashes.map ExtendedAddr.orTree) := by
    simp only [transferAddresses, hw]
    simp
  have hmapB : mapCollect (fun a => (c.index a).map AddressDetails.balance)
      (w.rootHashes.map ExtendedAddr.orTree) =
      Except.ok ((w.rootHashes.map ExtendedAddr.orTree).map (fun a => (D a).balance)) :=
    mapCollect_ok _ _ _ (fun a _ => by rw [hidx a]; rfl)
  have hmapH : mapCollect (fun a => (c.index a).map AddressDetails.transactionHistory)
      (w.rootHashes.map ExtendedAddr.orTree) =
      Except.ok ((w.rootHashes.map ExtendedAddr.orTree).map
        (fun a => (D a).transactionHistory)) :=
    mapCollect_ok _ _ _ (fun a _ => by rw [hidx a]; rfl)
  refine ⟨hT, ?_, ?_, ?_, ?_, ?_, hTok, ?_, ?_, ?_, ?_, ?_⟩
  · simp only [walletBalance, hT]
  · simp only [walletHistory, hT]
  · simp only [requiredCosigners, hT]
  · simp only [generateProofW, hT]
  · simp only [schnorrSignature, hT]
  · simp only [walletBalance, hTok, hmapB, sumCoins_le _ hsum, Except.isOk]
    rfl
  · simp only [walletHistory, hTok, hmapH, Except.isOk]
    rfl
  · simp only [requiredCosigners, hTok]
    exact hrs
  · simp only [generateProofW, hTok]
    exact hpr
  · simp only [schnorrSignature, hTok, hpk]
    exact hsig

theorem wallet_reads_passphrase_gate_witness :
    walletBalance okClient "w" "q" = Except.error ErrorKind.permissionDenied ∧
    (walletBalance okClient "w" "p").isOk = true := by
  have h := wallet_reads_passphrase_gate okClient "w" "q" ⟨"p", [[1], [2]]⟩
    (by decide) (by decide) okDetails (fun a => rfl) (by decide)
    [3] 2 rfl [[4]] [5] [[9]] rfl [6] 5 rfl [8] [7] rfl
  exact ⟨h.2.1, h.2.2.2.2.2.2.2.1⟩

/-- C7: with the correct passphrase, `balance` equals the checked sum of
`index.address_details(a).balance` over the wallet's transfer addresses; if
that sum exceeds `MAX_COIN` the call fails with balance-addition-error rather
than wrapping or saturating. -/
theorem wallet_balance_checked_sum
    (c : WalletClientM) (name : String) (w : WalletRecord)
    (hw : c.wallets name = some w)
    (D : ExtendedAddr → AddressDetails)
    (hidx : ∀ a, c.index a = Except.ok (D a)) :
    (((w.rootHashes.map ExtendedAddr.orTree).map (fun a => (D a).balance)).sum ≤ MAX_COIN →
      walletBalance c name w.passphrase = Except.ok
        (((w.rootHashes.map ExtendedAddr.orTree).map (fun a => (D a).balance)).sum)) ∧
    (MAX_COIN < ((w.rootHashes.map ExtendedAddr.orTree).map (fun a => (D a).balance)).sum →
      walletBalance c name w.passphrase = Except.error ErrorKind.balanceAdditionError) := by
  have hTok : transferAddresses c name w.passphrase =
      Except.ok (w.rootHashes.map ExtendedAddr.orTree) := by
    simp only [transferAddresses, hw]
    simp
  have hmapB : mapCollect (fun a => (c.index a).map AddressDetails.balance)
      (w.rootHashes.map ExtendedAddr.orTree) =
      Except.ok ((w.rootHashes.map ExtendedAddr.orTree).map (fun a => (D a).balance)) :=
    mapCollect_ok _ _ _ (fun a _ => by rw [hidx a]; rfl)
  constructor
  · intro hle
    simp only [walletBalance, hTok, hmapB, sumCoins_le _ hle]
  · intro hgt
    simp only [walletBalance, hTok, hmapB, sumCoins_gt _ hgt]

theorem wallet_balance_checked_sum_witness :
    walletBalance okClient "w" "p" = Except.ok 30 ∧
    walletBalance bigClient "w" "p" = Except.error ErrorKind.balanceAdditionError := by
  have h1 := (wallet_balance_checked_sum okClient "w" ⟨"p", [[1], [2]]⟩ (by decide)
    okDetails (fun a => rfl)).1 (by decide)
  have h2 := (wallet_balance_checked_sum bigClient "w" ⟨"p", [[1], [2]]⟩ (by decide)
    bigDetails (fun a => rfl)).2 (by decide)
  refine ⟨?_, h2⟩
  rw [h1]
  decide

/-- C8 counterexample: a wallet with two transfer addresses, each per-address
history sorted, whose aggregated `history` is the unsorted concatenation
`[height 2, height 1]`. -/
theorem wallet_history_unsorted_eval :
    walletHistory twoAddrClient "w" "p" = Except.ok [histChange 2, histChange 1] ∧
    sortedByHeight [histChange 2, histChange 1] = false ∧
    sortedByHeight [histChange 2] = true ∧
    sortedByHeight [histChange 1] = true := by
  decide

/-- C8 (amended): with the correct passphrase, `history` returns the
concatenation of the per-address histories in address order without
re-sorting; when the wallet has a single transfer address whose history is
sorted by `(block_height, position_in_block)`, the result is sorted, but
aggregation over several addresses need not be. -/
theorem wallet_history_concat
    (c : WalletClientM) (name : String) (w : WalletRecord)
    (hw : c.wallets name = some w)
    (D : ExtendedAddr → AddressDetails)
    (hidx : ∀ a, c.index a = Except.ok (D a)) :
    walletHistory c name w.passphrase = Except.ok
      (((w.rootHashes.map ExtendedAddr.orTree).map
        (fun a => (D a).transactionHistory)).flatten) ∧
    (∀ rh, w.rootHashes = [rh] →
      sortedByHeight (D (ExtendedAddr.orTree rh)).transactionHistory = true →
      ∃ hist, walletHistory c name w.passphrase = Except.ok hist ∧
        sortedByHeight hist = true) := by
  have hTok : transferAddresses c name w.passphrase =
      Except.ok (w.rootHashes.map ExtendedAddr.orTree) := by
    simp only [transferAddresses, hw]
    simp
  have hmapH : mapCollect (fun a => (c.index a).map AddressDetails.transactionHistory)
      (w.rootHashes.map ExtendedAddr.orTree) =
      Except.ok ((w.rootHashes.map ExtendedAddr.orTree).map
        (fun a => (D a).transactionHistory)) :=
    mapCollect_ok _ _ _ (fun a _ => by rw [hidx a]; rfl)
  have hmain : walletHistory c name w.passphrase = Except.ok
      (((w.rootHashes.map ExtendedAddr.orTree).map
        (fun a => (D a).transactionHistory)).flatten) := by
    simp only [walletHistory, hTok, hmapH]
  refine ⟨hmain, ?_⟩
  intro rh hrh hsorted
  refine ⟨(D (ExtendedAddr.orTree rh)).transactionHistory, ?_, hsorted⟩
  rw [hmain, hrh]
  simp

theorem wallet_history_concat_witness :
    walletHistory okClient "w" "p" = Except.ok [histChange 1, histChange 2] := by
  have h := (wallet_history_concat okClient "w" ⟨"p", [[1], [2]]⟩ (by decide)
    okDetails (fun a => rfl)).1
  rw [h]
  decide


end ChainTx
